import Mathlib

set_option maxHeartbeats 1000000

namespace IdbRag

/-- A text chunk as produced by the splitter: `page_content` plus a metadata
dictionary.  The metadata keys read or written by `load_docs.py` are modelled
as optional fields (`Option` because `dict.get` returns `None` for an absent
key); all remaining metadata entries are kept opaque in `extra`. -/
structure Document where
  page_content : String
  source : Option String
  page : Option Int
  id : Option String
  extra : List (String × String)
deriving Repr, DecidableEq

/-- Python f-string interpolation of a `metadata.get("source")` result:
`None` renders as the string `"None"`, a string renders as itself. -/
def pyStrOfOptStr : Option String → String
  | none => "None"
  | some s => s

/-- Python f-string interpolation of a `metadata.get("page")` result:
`None` renders as `"None"`, an integer as its decimal form. -/
def pyStrOfOptInt : Option Int → String
  | none => "None"
  | some n => toString n

/-- `page_id = f"{source}:{page}"` computed inside `calculate_chunk_ids`. -/
def pageId (c : Document) : String :=
  pyStrOfOptStr c.source ++ ":" ++ pyStrOfOptInt c.page

/-- The loop body of `calculate_chunk_ids` from `src/load_docs.py`, with the
two loop-carried variables `last_page_id` and `chunk_index` made explicit. -/
def calcAux (last : Option String) (idx : Nat) : List Document → List Document
  | [] => []
  | c :: cs =>
    let pid := pageId c
    let idx' := if some pid = last then idx + 1 else 0
    { c with id := some (pid ++ ":" ++ toString idx') } :: calcAux (some pid) idx' cs

/-- `calculate_chunk_ids` from `src/load_docs.py`: state starts as
`last_page_id = None`, `chunk_index = 0`, then the loop over the chunks. -/
def calculate_chunk_ids (chunks : List Document) : List Document :=
  calcAux none 0 chunks

/-- The spec's description of the ID assignment, transcribed literally: a
left-to-right fold whose state is the cursor (initially unset), the counter
(initially 0) and the output built so far.  For each chunk: compute
`page_id`, increment the counter if `page_id` equals the cursor else reset it
to 0, emit the chunk with id `page_id:counter`, update the cursor. -/
def specIdStep (st : Option String × Nat × List Document) (c : Document) :
    Option String × Nat × List Document :=
  let page_id := pageId c
  let counter := if some page_id = st.1 then st.2.1 + 1 else 0
  (some page_id, counter,
    st.2.2 ++ [{ c with id := some (page_id ++ ":" ++ toString counter) }])

/-- The spec's algorithm as a fold over the chunk list. -/
def spec_assign_ids (chunks : List Document) : List Document :=
  (chunks.foldl specIdStep (none, 0, [])).2.2

theorem specFold_eq_calcAux (l : List Document) :
    ∀ (last : Option String) (idx : Nat) (acc : List Document),
      (l.foldl specIdStep (last, idx, acc)).2.2 = acc ++ calcAux last idx l := by
  induction l with
  | nil => intro last idx acc; simp [calcAux]
  | cons c cs ih =>
    intro last idx acc
    simp only [List.foldl, specIdStep, calcAux]
    rw [ih]
    simp

/-- C1: `calculate_chunk_ids` assigns IDs exactly by the spec's fold: cursor
initially unset, counter initially 0; per chunk, `page_id = source:page`,
counter incremented when `page_id` equals the cursor and reset to 0 otherwise,
id set to `page_id:counter`, cursor updated to `page_id`. -/
theorem calculate_chunk_ids_eq_spec_fold (chunks : List Document) :
    calculate_chunk_ids chunks = spec_assign_ids chunks := by
  simp [calculate_chunk_ids, spec_assign_ids, specFold_eq_calcAux]

/-- Relation between an input chunk and the corresponding output chunk of
`calculate_chunk_ids`: content and every pre-existing metadata field are
unchanged, and the `id` field is set. -/
def sameExceptId (c c' : Document) : Prop :=
  c'.page_content = c.page_content ∧ c'.source = c.source ∧ c'.page = c.page ∧
    c'.extra = c.extra ∧ c'.id.isSome = true

theorem calcAux_forall2 (l : List Document) : ∀ (last : Option String) (idx : Nat),
    List.Forall₂ sameExceptId l (calcAux last idx l) := by
  induction l with
  | nil => intro last idx; exact List.Forall₂.nil
  | cons c cs ih =>
    intro last idx
    simp only [calcAux]
    exact List.Forall₂.cons ⟨rfl, rfl, rfl, rfl, rfl⟩ (ih _ _)

/-- C7: `calculate_chunk_ids` returns the chunks in the same order and number,
each with its text and pre-existing metadata unchanged and only the `id`
metadata field added. -/
theorem calculate_chunk_ids_frame (chunks : List Document) :
    List.Forall₂ sameExceptId chunks (calculate_chunk_ids chunks) :=
  calcAux_forall2 chunks none 0

theorem calcAux_const_ids (l : List Document) (q : String) :
    ∀ k : Nat, (∀ c ∈ l, pageId c = q) →
      (calcAux (some q) k l).map (fun c => c.id)
        = (List.range l.length).map (fun i => some (q ++ ":" ++ toString (k + 1 + i))) := by
  induction l with
  | nil => intro k _; simp [calcAux]
  | cons c cs ih =>
    intro k h
    have hc : pageId c = q := h c (by simp)
    have hcs : ∀ x ∈ cs, pageId x = q := fun x hx => h x (by simp [hx])
    have hi : (if (some q : Option String) = some q then k + 1 else 0) = k + 1 :=
      if_pos rfl
    simp only [calcAux, hc, hi, eq_self_iff_true, if_true, List.map_cons, ih (k + 1) hcs,
      List.length_cons, List.range_succ_eq_map, List.map_map]
    congr 1
    refine List.map_congr_left fun i _ => ?_
    have h2 : k + 1 + 1 + i = k + 1 + (i + 1) := by omega
    simp [Function.comp, h2]

theorem calc_ids_const (l : List Document) (q : String)
    (h : ∀ c ∈ l, pageId c = q) :
    (calculate_chunk_ids l).map (fun c => c.id)
      = (List.range l.length).map (fun i => some (q ++ ":" ++ toString i)) := by
  cases l with
  | nil => simp [calculate_chunk_ids, calcAux]
  | cons c cs =>
    have hc : pageId c = q := h c (by simp)
    have hcs : ∀ x ∈ cs, pageId x = q := fun x hx => h x (by simp [hx])
    have hx : (if some q = (none : Option String) then 0 + 1 else 0) = 0 := rfl
    simp only [calculate_chunk_ids, calcAux, hc, hx, List.map_cons,
      calcAux_const_ids cs q 0 hcs, List.length_cons, List.range_succ_eq_map,
      List.map_map]
    congr 1
    refine List.map_congr_left fun i _ => ?_
    have h2 : 0 + 1 + i = i + 1 := by omega
    simp [Function.comp, h2]

/-- C6: on a non-empty chunk list all sharing one `(source, page)`, the
assigned IDs are `source:page:0, source:page:1, …` in input order, the index
increasing by one from 0. -/
theorem ids_single_group (l : List Document) (s : Option String) (p : Option Int)
    (_hne : l ≠ []) (h : ∀ c ∈ l, c.source = s ∧ c.page = p) :
    (calculate_chunk_ids l).map (fun c => c.id)
      = (List.range l.length).map
          (fun i => some (pyStrOfOptStr s ++ ":" ++ pyStrOfOptInt p ++ ":" ++ toString i)) := by
  refine calc_ids_const l _ fun c hc => ?_
  have := h c hc
  simp [pageId, this.1, this.2]

/-- C6 witness: a concrete two-chunk list sharing `(source, page)`. -/
theorem ids_single_group_witness :
    (calculate_chunk_ids
        [⟨"t1", some "a.pdf", some 2, none, []⟩, ⟨"t2", some "a.pdf", some 2, none, []⟩]).map
        (fun c => c.id)
      = [some "a.pdf:2:0", some "a.pdf:2:1"] := by
  have h := ids_single_group
    [⟨"t1", some "a.pdf", some 2, none, []⟩, ⟨"t2", some "a.pdf", some 2, none, []⟩]
    (some "a.pdf") (some 2) (by simp) (by simp)
  simpa using h

/-- C10: `calculate_chunk_ids` is total on chunks missing metadata; chunks
whose metadata lacks both `source` and `page` render as `None` and all
consecutive such chunks share one counter group: IDs are `None:None:0,
None:None:1, …` in input order. -/
theorem ids_missing_metadata (l : List Document)
    (h : ∀ c ∈ l, c.source = none ∧ c.page = none) :
    (calculate_chunk_ids l).map (fun c => c.id)
      = (List.range l.length).map
          (fun i => some ("None" ++ ":" ++ "None" ++ ":" ++ toString i)) := by
  refine calc_ids_const l _ fun c hc => ?_
  have := h c hc
  simp [pageId, this.1, this.2, pyStrOfOptStr, pyStrOfOptInt]

/-- C10 witness: two chunks with no `source` and no `page` metadata. -/
theorem ids_missing_metadata_witness :
    (calculate_chunk_ids
        [⟨"t1", none, none, none, []⟩, ⟨"t2", none, none, none, []⟩]).map (fun c => c.id)
      = [some "None:None:0", some "None:None:1"] := by
  have h := ids_missing_metadata
    [⟨"t1", none, none, none, []⟩, ⟨"t2", none, none, none, []⟩] (by simp)
  simpa using h

/-- The helper state of `grouped`: `cur` is the key of the current contiguous
run, `seen` the keys of earlier finished runs. -/
def groupedAux (seen : List String) (cur : String) : List String → Bool
  | [] => true
  | x :: xs =>
    if x = cur then groupedAux seen cur xs
    else if x ∈ seen then false
    else groupedAux (cur :: seen) x xs

/-- A key list is grouped when equal keys appear only contiguously: once a
run of some key ends, that key never reappears. -/
def grouped : List String → Bool
  | [] => true
  | x :: xs => groupedAux [] x xs

/-- C5: a concrete interleaved chunk list — `(source a, page 1)`, then
`(source b, page 1)`, then `(source a, page 1)` again — is not grouped, and
`calculate_chunk_ids` assigns the same ID `a:1:0` to the first and third
chunks, which are distinct chunks. -/
theorem interleaved_chunks_collide :
    grouped ([⟨"t1", some "a", some 1, none, []⟩, ⟨"t2", some "b", some 1, none, []⟩,
        ⟨"t3", some "a", some 1, none, []⟩].map pageId) = false ∧
    (calculate_chunk_ids [⟨"t1", some "a", some 1, none, []⟩,
        ⟨"t2", some "b", some 1, none, []⟩, ⟨"t3", some "a", some 1, none, []⟩]).map
        (fun c => c.id)
      = [some "a:1:0", some "b:1:0", some "a:1:0"] ∧
    (⟨"t1", some "a", some 1, none, []⟩ : Document) ≠ ⟨"t3", some "a", some 1, none, []⟩ := by
  refine ⟨by decide, by decide, by decide⟩

/-- The `(page_id, chunk_index)` pairs produced by the loop of
`calculate_chunk_ids`, abstracted from the documents to their page keys. -/
def assignPairs (last : Option String) (idx : Nat) : List String → List (String × Nat)
  | [] => []
  | q :: qs =>
    let idx' := if some q = last then idx + 1 else 0
    (q, idx') :: assignPairs (some q) idx' qs

theorem calcAux_ids_eq_assignPairs (l : List Document) :
    ∀ (last : Option String) (idx : Nat),
      (calcAux last idx l).map (fun c => c.id)
        = (assignPairs last idx (l.map pageId)).map
            (fun pr => some (pr.1 ++ ":" ++ toString pr.2)) := by
  induction l with
  | nil => intro last idx; simp [calcAux, assignPairs]
  | cons c cs ih =>
    intro last idx
    simp only [calcAux, List.map_cons, assignPairs, ih]

/-- The decimal value of a character produced by `Nat.digitChar` for a digit. -/
def digitVal (c : Char) : Nat := c.toNat - 48

/-- A decimal digit character, `0x30` through `0x39`. -/
def isDecDigit (c : Char) : Prop := 48 ≤ c.toNat ∧ c.toNat ≤ 57

instance (c : Char) : Decidable (isDecDigit c) :=
  inferInstanceAs (Decidable (48 ≤ c.toNat ∧ c.toNat ≤ 57))

theorem digitChar_isDecDigit {m : Nat} (h : m < 10) : isDecDigit (Nat.digitChar m) := by
  interval_cases m <;> decide

theorem digitVal_digitChar {m : Nat} (h : m < 10) : digitVal (Nat.digitChar m) = m := by
  interval_cases m <;> decide

theorem isDecDigit_ne_colon {c : Char} (h : isDecDigit c) : c ≠ ':' := by
  intro hc
  subst hc
  exact absurd h.2 (by decide)

/-- Value of a most-significant-first decimal digit list, with accumulator. -/
def digitsVal : List Char → Nat → Nat
  | [], a => a
  | c :: cs, a => digitsVal cs (a * 10 + digitVal c)

theorem digitsVal_append (l1 l2 : List Char) (a : Nat) :
    digitsVal (l1 ++ l2) a = digitsVal l2 (digitsVal l1 a) := by
  induction l1 generalizing a with
  | nil => rfl
  | cons c cs ih =>
    simp only [List.cons_append, digitsVal]
    exact ih _

theorem toDigitsCore_spec : ∀ (fuel n : Nat), n < fuel → ∀ (acc : List Char),
    ∃ ds, Nat.toDigitsCore 10 fuel n acc = ds ++ acc ∧
      digitsVal ds 0 = n ∧ ∀ c ∈ ds, isDecDigit c := by
  intro fuel
  induction fuel with
  | zero => intro n h; omega
  | succ f ih =>
    intro n h acc
    by_cases h0 : n / 10 = 0
    · refine ⟨[Nat.digitChar (n % 10)], ?_, ?_, ?_⟩
      · simp [Nat.toDigitsCore, h0]
      · have h10 : n % 10 < 10 := Nat.mod_lt n (by omega)
        simp only [digitsVal, digitVal_digitChar h10]
        omega
      · intro c hc
        rcases List.mem_singleton.mp hc with rfl
        exact digitChar_isDecDigit (Nat.mod_lt n (by omega))
    · have hn' : n / 10 < f := by omega
      obtain ⟨ds, hds, hval, hdig⟩ := ih (n / 10) hn' (Nat.digitChar (n % 10) :: acc)
      refine ⟨ds ++ [Nat.digitChar (n % 10)], ?_, ?_, ?_⟩
      · simp only [Nat.toDigitsCore, if_neg h0, hds, List.append_assoc,
          List.singleton_append]
      · rw [digitsVal_append]
        simp only [digitsVal, hval, digitVal_digitChar (Nat.mod_lt n (by omega) : n % 10 < 10)]
        omega
      · intro c hc
        rcases List.mem_append.mp hc with hc | hc
        · exact hdig c hc
        · rcases List.mem_singleton.mp hc with rfl
          exact digitChar_isDecDigit (Nat.mod_lt n (by omega))

theorem repr_spec (n : Nat) :
    digitsVal (Nat.repr n).data 0 = n ∧ ∀ c ∈ (Nat.repr n).data, isDecDigit c := by
  obtain ⟨ds, hds, hval, hdig⟩ := toDigitsCore_spec (n + 1) n (by omega) []
  have hdata : (Nat.repr n).data = Nat.toDigits 10 n := rfl
  have htd : Nat.toDigits 10 n = Nat.toDigitsCore 10 (n + 1) n [] := rfl
  rw [hdata, htd, hds, List.append_nil]
  exact ⟨hval, hdig⟩

theorem natRepr_injective {n1 n2 : Nat} (h : Nat.repr n1 = Nat.repr n2) : n1 = n2 := by
  have h1 := (repr_spec n1).1
  have h2 := (repr_spec n2).1
  rw [← h1, ← h2, h]

theorem natRepr_no_colon (n : Nat) : ':' ∉ (Nat.repr n).data := by
  intro hmem
  exact absurd rfl (isDecDigit_ne_colon ((repr_spec n).2 ':' hmem))

theorem colon_head_inj : ∀ (u1 v1 u2 v2 : List Char), ':' ∉ u1 → ':' ∉ u2 →
    u1 ++ ':' :: v1 = u2 ++ ':' :: v2 → u1 = u2 ∧ v1 = v2 := by
  intro u1
  induction u1 with
  | nil =>
    intro v1 u2 v2 _ h2 heq
    cases u2 with
    | nil =>
      simp only [List.nil_append, List.cons.injEq] at heq
      exact ⟨rfl, heq.2⟩
    | cons d u2' =>
      simp only [List.nil_append, List.cons_append, List.cons.injEq] at heq
      exact absurd (heq.1 ▸ List.mem_cons_self d u2') h2
  | cons d u1' ih =>
    intro v1 u2 v2 h1 h2 heq
    cases u2 with
    | nil =>
      simp only [List.cons_append, List.nil_append, List.cons.injEq] at heq
      exact absurd (heq.1 ▸ List.mem_cons_self d u1') h1
    | cons e u2' =>
      simp only [List.cons_append, List.cons.injEq] at heq
      have h1' : ':' ∉ u1' := fun hm => h1 (List.mem_cons_of_mem d hm)
      have h2' : ':' ∉ u2' := fun hm => h2 (List.mem_cons_of_mem e hm)
      obtain ⟨hu, hv⟩ := ih v1 u2' v2 h1' h2' heq.2
      exact ⟨by rw [heq.1, hu], hv⟩

theorem id_string_inj {p1 p2 : String} {n1 n2 : Nat}
    (h : p1 ++ ":" ++ toString n1 = p2 ++ ":" ++ toString n2) : p1 = p2 ∧ n1 = n2 := by
  have hd : p1.data ++ ':' :: (Nat.repr n1).data
      = p2.data ++ ':' :: (Nat.repr n2).data := by
    have := congrArg String.data h
    simpa [String.data_append] using this
  have hrev := congrArg List.reverse hd
  simp only [List.reverse_append, List.reverse_cons, List.append_assoc,
    List.singleton_append] at hrev
  have hnc1 : ':' ∉ (Nat.repr n1).data.reverse := fun hm =>
    natRepr_no_colon n1 (List.mem_reverse.mp hm)
  have hnc2 : ':' ∉ (Nat.repr n2).data.reverse := fun hm =>
    natRepr_no_colon n2 (List.mem_reverse.mp hm)
  obtain ⟨hr, hp⟩ := colon_head_inj _ _ _ _ hnc1 hnc2 hrev
  constructor
  · exact String.ext (List.reverse_injective hp)
  · exact natRepr_injective (String.ext (List.reverse_injective hr))

theorem assignPairs_invariant :
    ∀ (xs seen : List String) (cur : String) (k : Nat),
      groupedAux seen cur xs = true → cur ∉ seen →
        (∀ pr ∈ assignPairs (some cur) k xs, (pr.1 = cur → k < pr.2) ∧ pr.1 ∉ seen) ∧
          (assignPairs (some cur) k xs).Nodup := by
  intro xs
  induction xs with
  | nil =>
    intro seen cur k _ _
    exact ⟨fun pr hpr => absurd hpr (by simp [assignPairs]), by simp [assignPairs]⟩
  | cons x xs ih =>
    intro seen cur k hg hcs
    by_cases hx : x = cur
    · subst hx
      have hg' : groupedAux seen x xs = true := by
        simpa [groupedAux] using hg
      obtain ⟨hall, hnd⟩ := ih seen x (k + 1) hg' hcs
      have hunfold : assignPairs (some x) k (x :: xs)
          = (x, k + 1) :: assignPairs (some x) (k + 1) xs := by
        simp [assignPairs]
      rw [hunfold]
      constructor
      · intro pr hpr
        rcases List.mem_cons.mp hpr with rfl | hpr
        · exact ⟨fun _ => Nat.lt_succ_self k, hcs⟩
        · obtain ⟨h1, h2⟩ := hall pr hpr
          exact ⟨fun he => Nat.lt_of_succ_lt (h1 he), h2⟩
      · refine List.Nodup.cons (fun hmem => ?_) hnd
        obtain ⟨h1, _⟩ := hall (x, k + 1) hmem
        exact absurd (h1 rfl) (by omega)
    · have hxs : x ∉ seen := by
        by_cases hmem : x ∈ seen
        · exfalso
          have : groupedAux seen cur (x :: xs) = false := by
            simp [groupedAux, hx, hmem]
          rw [this] at hg
          exact Bool.false_ne_true hg
        · exact hmem
      have hg' : groupedAux (cur :: seen) x xs = true := by
        have := hg
        simpa [groupedAux, hx, hxs] using this
      have hxcs : x ∉ cur :: seen := by
        intro hmem
        rcases List.mem_cons.mp hmem with h | h
        · exact hx h
        · exact hxs h
      obtain ⟨hall, hnd⟩ := ih (cur :: seen) x 0 hg' hxcs
      have hunfold : assignPairs (some cur) k (x :: xs)
          = (x, 0) :: assignPairs (some x) 0 xs := by
        simp [assignPairs, hx]
      rw [hunfold]
      constructor
      · intro pr hpr
        rcases List.mem_cons.mp hpr with rfl | hpr
        · exact ⟨fun he => absurd he hx, hxs⟩
        · obtain ⟨_, h2⟩ := hall pr hpr
          have hne1 : pr.1 ≠ cur := fun he => h2 (he ▸ List.mem_cons_self cur seen)
          have hne2 : pr.1 ∉ seen := fun hm => h2 (List.mem_cons_of_mem cur hm)
          exact ⟨fun he => absurd he hne1, hne2⟩
      · refine List.Nodup.cons (fun hmem => ?_) hnd
        obtain ⟨h1, _⟩ := hall (x, 0) hmem
        exact absurd (h1 rfl) (by omega)

theorem assignPairs_nodup (qs : List String) (hg : grouped qs = true) :
    (assignPairs none 0 qs).Nodup := by
  cases qs with
  | nil => simp [assignPairs]
  | cons q qs =>
    have hg' : groupedAux [] q qs = true := hg
    obtain ⟨hall, hnd⟩ := assignPairs_invariant qs [] q 0 hg' (by simp)
    have hunfold : assignPairs none 0 (q :: qs) = (q, 0) :: assignPairs (some q) 0 qs := by
      simp [assignPairs]
    rw [hunfold]
    refine List.Nodup.cons (fun hmem => ?_) hnd
    obtain ⟨h1, _⟩ := hall (q, 0) hmem
    exact absurd (h1 rfl) (by omega)

/-- C2: when the `(source, page)` groups of the chunk list are contiguous in
processing order, the ID strings assigned by `calculate_chunk_ids` are
pairwise distinct: no two chunks receive the same id. -/
theorem grouped_ids_nodup (l : List Document)
    (hg : grouped (l.map pageId) = true) :
    ((calculate_chunk_ids l).map (fun c => c.id)).Nodup := by
  rw [calculate_chunk_ids, calcAux_ids_eq_assignPairs]
  refine List.Nodup.map ?_ (assignPairs_nodup _ hg)
  intro a b hab
  have hab' := Option.some.inj hab
  obtain ⟨h1, h2⟩ := id_string_inj hab'
  exact Prod.ext h1 h2

/-- C2 witness: two grouped `(source, page)` groups of sizes 2 and 1. -/
theorem grouped_ids_nodup_witness :
    ((calculate_chunk_ids
        [⟨"t1", some "a", some 1, none, []⟩, ⟨"t2", some "a", some 1, none, []⟩,
          ⟨"t3", some "a", some 2, none, []⟩]).map (fun c => c.id)).Nodup :=
  grouped_ids_nodup
    [⟨"t1", some "a", some 1, none, []⟩, ⟨"t2", some "a", some 1, none, []⟩,
      ⟨"t3", some "a", some 2, none, []⟩] (by decide)

/-- The persisted Chroma collection: the stored ids and documents. -/
structure VectorStore where
  ids : List String
  docs : List Document
deriving Repr, DecidableEq

/-- The filesystem state visible to `load_docs.py`: the Chroma directory
(`none` = absent) and the subdirectories of `data/` with their file names. -/
structure FileSystem where
  chroma : Option VectorStore
  dataDirs : List (String × List String)
deriving Repr, DecidableEq

/-- Opening the store at `CHROMA_DIR` and running `db.get(include=[])`:
an absent directory opens as a fresh empty collection, so the fetched
existing-ID set is that collection's id list. -/
def fetchExistingIds (fs : FileSystem) : List String :=
  (fs.chroma.getD ⟨[], []⟩).ids

/-- `chunk.metadata["id"]`; after `calculate_chunk_ids` the key is present. -/
def chunkId (c : Document) : String := c.id.getD ""

/-- `clear_database` from `src/load_docs.py`: remove the Chroma directory
when it exists. -/
def clear_database (fs : FileSystem) : FileSystem :=
  if fs.chroma.isSome then { fs with chroma := none } else fs

/-- `add_to_db` from `src/load_docs.py`: open the store (creating the
directory if needed), fetch the existing ids, filter the freshly-ID'd chunks
to those whose id is absent, and insert them with their ids as keys when any
remain.  Returns the filesystem and the number of chunks inserted. -/
def add_to_db (fs : FileSystem) (chunks : List Document) : FileSystem × Nat :=
  let db := fs.chroma.getD ⟨[], []⟩
  let existing := db.ids
  let new_chunks := (calculate_chunk_ids chunks).filter
    (fun c => !(existing.contains (chunkId c)))
  if new_chunks.isEmpty then
    ({ fs with chroma := some db }, 0)
  else
    ({ fs with chroma := some ⟨db.ids ++ new_chunks.map chunkId, db.docs ++ new_chunks⟩ },
      new_chunks.length)

/-- The `*.pdf` glob test on a file name: it ends with `.pdf`. -/
def isPdfFile (f : String) : Bool :=
  List.isPrefixOf ".pdf".data.reverse f.data.reverse

/-- Result of one invocation of `main`: the final filesystem, the number of
vector-store connections opened, and the console reports (abstracted to
tags, one per `print` site reached). -/
structure RunResult where
  fs : FileSystem
  connections : Nat
  messages : List String
deriving Repr, DecidableEq

/-- `main` from `src/load_docs.py`, with the external loader and splitter
(`load_documents`, `split_documents`) abstracted as the oracle `loadSplit`
from a PDF file name to its chunk list.  Control flow of the source:
optional reset, directory check, `*.pdf` glob sorted by name, then one
`add_to_db` per file, each opening its own store connection. -/
def runMain (loadSplit : String → List Document) (reset : Bool) (dir : String)
    (fs : FileSystem) : RunResult :=
  let fs1 := if reset then clear_database fs else fs
  match fs1.dataDirs.find? (fun pr => pr.1 == dir) with
  | none => ⟨fs1, 0, ["directory_not_found"]⟩
  | some pr =>
    let pdfs := List.insertionSort (· ≤ ·) (pr.2.filter isPdfFile)
    if pdfs.isEmpty then ⟨fs1, 0, ["no_pdf_files"]⟩
    else
      pdfs.foldl
        (fun acc p =>
          let r := add_to_db acc.fs (loadSplit p)
          ⟨r.1, acc.connections + 1, acc.messages ++ ["ingesting:" ++ p]⟩)
        ⟨fs1, 0, ["found_pdfs"]⟩

theorem clear_database_eq (fs : FileSystem) :
    clear_database fs = ⟨none, fs.dataDirs⟩ := by
  unfold clear_database
  by_cases h : fs.chroma.isSome
  · rw [if_pos h]
  · rw [if_neg h]
    have : fs.chroma = none := Option.not_isSome_iff_eq_none.mp h
    cases fs
    simp_all

/-- C3: re-running ingestion on unchanged chunks against a store that already
contains every computed ID inserts zero chunks: the diff filter removes all
of them and `add_to_db` performs no insert (it only materialises the store
directory, as `mkdir(exist_ok=True)` does). -/
theorem add_to_db_idempotent (fs : FileSystem) (chunks : List Document)
    (h : ∀ c ∈ calculate_chunk_ids chunks, chunkId c ∈ fetchExistingIds fs) :
    add_to_db fs chunks = ({ fs with chroma := some (fs.chroma.getD ⟨[], []⟩) }, 0) := by
  have hfilter : (calculate_chunk_ids chunks).filter
      (fun c => !((fs.chroma.getD ⟨[], []⟩).ids.contains (chunkId c))) = [] := by
    rw [List.filter_eq_nil_iff]
    intro c hc
    simp
    exact h c hc
  simp only [add_to_db]
  rw [hfilter]
  rfl

/-- C3 witness: a one-chunk list whose computed ID `a:1:0` is already in the
store. -/
theorem add_to_db_idempotent_witness :
    add_to_db ⟨some ⟨["a:1:0"], []⟩, []⟩ [⟨"t", some "a", some 1, none, []⟩]
      = (⟨some ⟨["a:1:0"], []⟩, []⟩, 0) :=
  add_to_db_idempotent ⟨some ⟨["a:1:0"], []⟩, []⟩ [⟨"t", some "a", some 1, none, []⟩]
    (by decide)

/-- C4: without the reset flag, a missing ingestion directory — or one with
no `*.pdf` files — makes the driver report the condition on the console and
return normally, with no store connection attempted and the filesystem
unchanged. -/
theorem no_pdfs_no_connection (loadSplit : String → List Document) (dir : String)
    (fs : FileSystem)
    (h : fs.dataDirs.find? (fun pr => pr.1 == dir) = none ∨
      ∃ pr, fs.dataDirs.find? (fun pr => pr.1 == dir) = some pr ∧
        pr.2.filter isPdfFile = []) :
    (runMain loadSplit false dir fs).connections = 0 ∧
      (runMain loadSplit false dir fs).fs = fs ∧
      ((runMain loadSplit false dir fs).messages = ["directory_not_found"] ∨
        (runMain loadSplit false dir fs).messages = ["no_pdf_files"]) := by
  rcases h with h | ⟨pr, hpr, hempty⟩
  · simp [runMain, h]
  · simp [runMain, hpr, hempty, List.insertionSort]

/-- C4 witness: a data directory holding a single non-PDF file. -/
theorem no_pdfs_no_connection_witness :
    (runMain (fun _ => []) false "d" ⟨some ⟨["x"], []⟩, [("d", ["notes.txt"])]⟩).connections
        = 0 ∧
      (runMain (fun _ => []) false "d" ⟨some ⟨["x"], []⟩, [("d", ["notes.txt"])]⟩).fs
        = ⟨some ⟨["x"], []⟩, [("d", ["notes.txt"])]⟩ ∧
      ((runMain (fun _ => []) false "d"
            ⟨some ⟨["x"], []⟩, [("d", ["notes.txt"])]⟩).messages = ["directory_not_found"] ∨
        (runMain (fun _ => []) false "d"
            ⟨some ⟨["x"], []⟩, [("d", ["notes.txt"])]⟩).messages = ["no_pdf_files"]) :=
  no_pdfs_no_connection (fun _ => []) "d" ⟨some ⟨["x"], []⟩, [("d", ["notes.txt"])]⟩
    (Or.inr ⟨("d", ["notes.txt"]), by decide, by decide⟩)

/-- C8: with the reset flag, `main` destroys the persisted store before any
processing — the run equals an unreset run on the cleared filesystem — and a
fetch of existing IDs after the clear returns the empty set. -/
theorem reset_clears_store (loadSplit : String → List Document) (dir : String)
    (fs : FileSystem) :
    runMain loadSplit true dir fs = runMain loadSplit false dir (clear_database fs) ∧
      (clear_database fs).chroma = none ∧
      fetchExistingIds (clear_database fs) = [] := by
  refine ⟨rfl, ?_, ?_⟩
  · rw [clear_database_eq]
  · rw [fetchExistingIds, clear_database_eq]
    rfl

/-- C9: the reset happens before the ingestion directory is checked: with the
reset flag, even an invocation whose directory is missing or has no PDFs —
which only reports and returns — has already destroyed the persisted store. -/
theorem reset_destroys_store_on_empty_dir (loadSplit : String → List Document)
    (dir : String) (fs : FileSystem)
    (h : fs.dataDirs.find? (fun pr => pr.1 == dir) = none ∨
      ∃ pr, fs.dataDirs.find? (fun pr => pr.1 == dir) = some pr ∧
        pr.2.filter isPdfFile = []) :
    (runMain loadSplit true dir fs).fs.chroma = none ∧
      ((runMain loadSplit true dir fs).messages = ["directory_not_found"] ∨
        (runMain loadSplit true dir fs).messages = ["no_pdf_files"]) := by
  rcases h with h | ⟨pr, hpr, hempty⟩
  · simp [runMain, clear_database_eq, h]
  · simp [runMain, clear_database_eq, hpr, hempty, List.insertionSort]

/-- C9 witness: reset on a filesystem with a live store and a missing
directory. -/
theorem reset_destroys_store_on_empty_dir_witness :
    (runMain (fun _ => []) true "missing" ⟨some ⟨["x"], []⟩, []⟩).fs.chroma = none ∧
      ((runMain (fun _ => []) true "missing"
            ⟨some ⟨["x"], []⟩, []⟩).messages = ["directory_not_found"] ∨
        (runMain (fun _ => []) true "missing"
            ⟨some ⟨["x"], []⟩, []⟩).messages = ["no_pdf_files"]) :=
  reset_destroys_store_on_empty_dir (fun _ => []) "missing" ⟨some ⟨["x"], []⟩, []⟩
    (Or.inl (by decide))

end IdbRag
